import Mathlib

/-!
# Verification of the fintool transaction store and sync pipeline

A shallow embedding of the core of the `fintool` repository
(`src/fintool/transac.py`, `src/fintool/db.py`, `src/fintool/tagging.py`,
`src/fintool/sync.py`) together with proofs about the claims of its
specification.

Modelling conventions:
* Python exceptions become `Except Err`; each exception class of the source
  maps to one constructor of `Err`.
* Python `float` amounts are modelled as exact rationals `ℚ`.  The source
  parses amounts with `float(...)` and writes them back with `str`; CPython's
  repr round-trip guarantee makes write→read the identity, which the rational
  model reproduces exactly.
* Python `set` values (transaction tags, tag labels) are modelled as
  `Finset String`.
* The CSV layer stores flat string maps.  Collections are modelled as lists
  of typed records; stringification of the cells is abstracted away, except
  where it is observable: a `None` email id is written as the empty cell and
  read back as the empty string, which the read path below reproduces.
-/

/-- Error kinds of the embedded code.  Each constructor stands for one
exception class of the source: `MissingCollectionError` (db.py),
`MissingFieldError` / `InvalidFieldValueError` / `InvalidTransactionError`
(transac.py) and `NoTagsError` (the tagging revision imported by sync.py).
`outOfFuel` is a modelling artifact: it signals that the fuel given to the
embedded `while True` loop of `calculate_collections_from_date_range` ran
out, i.e. the source would still be looping. -/
inductive Err where
  | missingCollection
  | missingField
  | invalidFieldValue
  | invalidTransaction
  | noTags
  | outOfFuel
deriving DecidableEq, Repr

/-- Python `str.split(c)` on a list of characters: splitting the empty string
yields one empty piece, exactly as `''.split('|') == ['']`. -/
def splitChar (c : Char) : List Char → List (List Char)
  | [] => [[]]
  | x :: xs =>
    if x = c then [] :: splitChar c xs
    else
      match splitChar c xs with
      | [] => [[x]]
      | h :: t => (x :: h) :: t

/-- Python `c.join(pieces)` on lists of characters. -/
def joinChar (c : Char) : List (List Char) → List Char
  | [] => []
  | [x] => x
  | x :: y :: t => x ++ c :: joinChar c (y :: t)

/-- Python `s.split(c)` for strings. -/
def pySplit (c : Char) (s : String) : List String :=
  (splitChar c s.data).map fun l => ⟨l⟩

/-- Python `c.join(l)` for strings. -/
def pyJoin (c : Char) (l : List String) : String :=
  ⟨joinChar c (l.map String.data)⟩

/-- Accumulate a digit run into a natural number. -/
def digitsToNat (l : List Char) : Nat :=
  l.foldl (fun a c => a * 10 + (c.toNat - 48)) 0

/-- Python `int(...)` on the digit strings appearing in dates.  Non-digit
input raises `ValueError` in the source and lies outside the modelled
domain (on all-digit strings the fold below is exactly `int`). -/
def natOf (s : String) : Nat :=
  digitsToNat s.data

/-- Gregorian leap-year rule, as used by `datetime.datetime`. -/
def isLeapYear (y : Nat) : Bool :=
  y % 4 = 0 && (y % 100 ≠ 0 || y % 400 = 0)

/-- Number of days of month `m` of year `y`, as validated by
`datetime.datetime`. -/
def daysInMonth (y m : Nat) : Nat :=
  if m = 2 then (if isLeapYear y then 29 else 28)
  else if m = 4 ∨ m = 6 ∨ m = 9 ∨ m = 11 then 30
  else 31

/-- Model of `datetime.datetime.strptime(s, '%Y-%m-%d')` succeeding:
`%Y` requires exactly four digits, `%m` and `%d` one or two digits, the
full string must be consumed, and the resulting calendar date must be a
real one (`datetime` rejects year 0, month 0 or 13, day 0 or a day past
the month's end, honouring leap years). -/
def validDate (s : String) : Bool :=
  match pySplit '-' s with
  | [ys, ms, ds] =>
    ys.length = 4 && ys.data.all (·.isDigit) &&
    (ms.length = 1 || ms.length = 2) && ms.data.all (·.isDigit) &&
    (ds.length = 1 || ds.length = 2) && ds.data.all (·.isDigit) &&
    1 ≤ natOf ys &&
    1 ≤ natOf ms && natOf ms ≤ 12 &&
    1 ≤ natOf ds && natOf ds ≤ daysInMonth (natOf ys) (natOf ms)
  | _ => false

/-- Parse an unsigned decimal mantissa (`123`, `12.3`, `.5`, `12.`),
returning its value and the unconsumed rest. -/
def parseMantissa (l : List Char) : Option (ℚ × List Char) :=
  let ip := l.takeWhile (·.isDigit)
  let r1 := l.dropWhile (·.isDigit)
  match r1 with
  | '.' :: r2 =>
    let fp := r2.takeWhile (·.isDigit)
    let r3 := r2.dropWhile (·.isDigit)
    if ip.isEmpty && fp.isEmpty then none
    else some ((digitsToNat ip : ℚ) + (digitsToNat fp : ℚ) / ((10 : ℚ) ^ fp.length), r3)
  | _ => if ip.isEmpty then none else some ((digitsToNat ip : ℚ), r1)

/-- Model of Python `float(s)` on decimal literals: optional sign, mantissa,
optional exponent.  (The `inf`/`nan`/underscore forms accepted by CPython
produce values no claim exercises and are outside the modelled domain.) -/
def parseFloat (s : String) : Option ℚ :=
  let (sgn, body) :=
    match s.data with
    | '-' :: r => ((-1 : ℚ), r)
    | '+' :: r => ((1 : ℚ), r)
    | r => ((1 : ℚ), r)
  match parseMantissa body with
  | none => none
  | some (q, rest) =>
    match rest with
    | [] => some (sgn * q)
    | 'e' :: r => parseFloatExp sgn q r
    | 'E' :: r => parseFloatExp sgn q r
    | _ => none
where
  /-- Parse the signed exponent part after `e`/`E`. -/
  parseFloatExp (sgn q : ℚ) (l : List Char) : Option ℚ :=
    let (esgn, digits) :=
      match l with
      | '-' :: r => (false, r)
      | '+' :: r => (true, r)
      | r => (true, r)
    if digits.isEmpty || !digits.all (·.isDigit) then none
    else
      let e := digitsToNat digits
      some (if esgn then sgn * q * (10 : ℚ) ^ e else sgn * q / (10 : ℚ) ^ e)

/-! ## Record store (`src/fintool/db.py`, class `CsvDb`)

A store is a list of named collections; each collection is an ordered list of
records (one CSV file; row order is file order, `add_record` appends).  The
record type is a parameter: transaction partitions, the sync collections and
the last-sync collection hold differently shaped rows. -/

/-- The record store: named collections in creation order. -/
abbrev Store (R : Type) := List (String × List R)

/-- `CsvDb.get_records`: all rows of a collection, in file order; raises
`MissingCollectionError` when the collection file was never created. -/
def get_records {R : Type} (st : Store R) (c : String) : Except Err (List R) :=
  match st with
  | [] => .error .missingCollection
  | p :: rest => if p.1 = c then .ok p.2 else get_records rest c

/-- `CsvDb.add_record`: append a row to a collection, creating the collection
(file plus header) if it does not exist yet. -/
def add_record {R : Type} (st : Store R) (r : R) (c : String) : Store R :=
  match st with
  | [] => [(c, [r])]
  | p :: rest => if p.1 = c then (p.1, p.2 ++ [r]) :: rest else p :: add_record rest r c

/-- `CsvDb.remove_record`: rewrite a collection keeping only the rows whose
`id_field` cell differs from `id_value` (every matching row is dropped);
raises `MissingCollectionError` when the collection is absent.  `idOf`
selects the compared cell. -/
def remove_record {R K : Type} [DecidableEq K] (idOf : R → K) (idVal : K) (c : String)
    (st : Store R) : Except Err (Store R) :=
  match st with
  | [] => .error .missingCollection
  | p :: rest =>
    if p.1 = c then .ok ((p.1, p.2.filter fun r => ¬ idOf r = idVal) :: rest)
    else (remove_record idOf idVal c rest).map (p :: ·)

/-- `CsvDb.edit_record`: rewrite a collection replacing every row whose
`id_field` cell equals `id_value` with `new_record`; raises
`MissingCollectionError` when the collection is absent. -/
def edit_record {R K : Type} [DecidableEq K] (idOf : R → K) (idVal : K) (newR : R)
    (c : String) (st : Store R) : Except Err (Store R) :=
  match st with
  | [] => .error .missingCollection
  | p :: rest =>
    if p.1 = c then .ok ((p.1, p.2.map fun r => if idOf r = idVal then newR else r) :: rest)
    else (edit_record idOf idVal newR c rest).map (p :: ·)

/-- The rows of a collection, reading an absent collection as empty.  Used to
state frame properties uniformly. -/
def recordsOf {R : Type} (st : Store R) (c : String) : List R :=
  match get_records st c with
  | .ok rs => rs
  | .error _ => []

/-! ## Transactions (`src/fintool/transac.py`) -/

/-- The value passed under the `amount` key: a string (CLI input, CSV cell)
or a number (a dict produced by `Transaction.serialize`).  `float(x)` is the
identity on numbers and a parse on strings. -/
inductive AmountInput where
  | str (s : String)
  | num (q : ℚ)
deriving DecidableEq

/-- `float(...)` applied to the value under the `amount` key. -/
def parseAmountInput : AmountInput → Option ℚ
  | .str s => parseFloat s
  | .num q => some q

/-- The keyword-argument dictionary accepted by `Transaction.__init__`.
A `none` field is an absent key (`KeyError` → `MissingFieldError` for the
required ones).  The source accepts arbitrary objects under `tags`, raising
`InvalidFieldValueError` when the value has no `.split` (non-string); only
string values are modelled — no claim passes a non-string. -/
structure FieldMap where
  id : Option String := none
  type : Option String := none
  tags : Option String := none
  date : Option String := none
  amount : Option AmountInput := none
  email_id : Option String := none
deriving DecidableEq

/-- An in-memory `Transaction` instance. -/
structure Tx where
  id : String
  type : String
  date : String
  amount : ℚ
  tags : Finset String
  email_id : Option String
deriving DecidableEq

/-- `Transaction.__init__(**kwargs)`: validation in source order — `type`
must be in `SUPPORTED_TYPES = {income, outcome}`, `tags` is split on `|`
into a set, `date` must satisfy `strptime('%Y-%m-%d')`, `amount` must parse
as a float; a missing required key raises `MissingFieldError`.  `id` is taken
from the map when present, otherwise the fresh uuid4 hex `genId` is used;
`email_id` is `kwargs.get`, i.e. optional. -/
def mkTransaction (genId : String) (m : FieldMap) : Except Err Tx :=
  match m.type with
  | none => .error .missingField
  | some ty =>
    if ty = "income" ∨ ty = "outcome" then
      match m.tags with
      | none => .error .missingField
      | some ts =>
        match m.date with
        | none => .error .missingField
        | some d =>
          if validDate d then
            match m.amount with
            | none => .error .missingField
            | some a =>
              match parseAmountInput a with
              | none => .error .invalidFieldValue
              | some q =>
                .ok { id := m.id.getD genId, type := ty, date := d, amount := q,
                      tags := (pySplit '|' ts).toFinset, email_id := m.email_id }
          else .error .invalidFieldValue
    else .error .invalidFieldValue

/-- `'|'.join(tags)`: the source joins a Python set, whose iteration order is
unspecified; the model picks the sorted order.  Every property proved below
is insensitive to the order chosen, since the string is only ever split back
into a set. -/
def joinTags (s : Finset String) : String :=
  pyJoin '|' (s.sort (· ≤ ·))

/-- The dictionary produced by `Transaction.serialize()`. -/
structure TxRecord where
  id : String
  type : String
  date : String
  amount : ℚ
  tags : String
  email_id : Option String
deriving DecidableEq

/-- `Transaction.serialize()`. -/
def Tx.serialize (t : Tx) : TxRecord :=
  { id := t.id, type := t.type, date := t.date, amount := t.amount,
    tags := joinTags t.tags, email_id := t.email_id }

/-- A serialized dictionary viewed again as `Transaction(**d)` keyword
arguments (used by the round-trip claim). -/
def recordToFieldMap (r : TxRecord) : FieldMap :=
  { id := some r.id, type := some r.type, tags := some r.tags, date := some r.date,
    amount := some (.num r.amount), email_id := r.email_id }

/-- `Transaction(**row)` for a row read back from a CSV collection, as done
by `create_transaction_list`.  Every column is present in the row; the CSV
layer turned a `None` email id into the empty cell, so `email_id` comes back
as the empty string, and the amount cell re-parses to the value written
(repr round-trip).  The `genId` argument of `mkTransaction` is irrelevant
because the row always carries an `id` cell. -/
def txOfStoredRecord (r : TxRecord) : Except Err Tx :=
  mkTransaction ""
    { id := some r.id, type := some r.type, tags := some r.tags, date := some r.date,
      amount := some (.num r.amount), email_id := some (r.email_id.getD "") }

/-- `TransactionManager.create_transaction_list`: build `Transaction`
instances from a list of rows, propagating the first validation error. -/
def create_transaction_list : List TxRecord → Except Err (List Tx)
  | [] => .ok []
  | r :: rs =>
    match txOfStoredRecord r with
    | .error e => .error e
    | .ok t =>
      match create_transaction_list rs with
      | .error e => .error e
      | .ok ts => .ok (t :: ts)

/-- The fields of a transaction that a successful `Transaction.__init__`
guarantees; exactly what is needed for a stored copy to re-validate. -/
def WellFormedTx (t : Tx) : Prop :=
  (t.type = "income" ∨ t.type = "outcome") ∧ validDate t.date = true ∧
  t.tags.Nonempty ∧ ∀ s ∈ t.tags, ('|' : Char) ∉ s.data

instance (t : Tx) : Decidable (WellFormedTx t) := by
  unfold WellFormedTx; infer_instance

/-! ## Transaction manager (`src/fintool/transac.py`, `TransactionManager`) -/

/-- `TransactionManager.calculate_collection_from_date`: the partition key
`YYYY/MM` obtained by splitting the date string on `-`.  (With fewer than
two parts the source raises `IndexError`; valid dates always have three.) -/
def calculate_collection_from_date (s : String) : String :=
  match pySplit '-' s with
  | p0 :: p1 :: _ => p0 ++ "/" ++ p1
  | _ => ""

/-- One iteration's key inside `calculate_collections_from_date_range`: the
source formats `f'{year}-{"0" if month < 10 else ""}{month}'` and feeds it
through `calculate_collection_from_date`. -/
def mkMonthKey (year month : Nat) : String :=
  calculate_collection_from_date
    (toString year ++ "-" ++ (if month < 10 then "0" else "") ++ toString month)

/-- The `while True` loop of `calculate_collections_from_date_range`,
fuelled: `none` means the fuel ran out, i.e. the source loop is still
running after that many iterations. -/
def rangeLoop (monthLimit yearLimit : Nat) : Nat → Nat → Nat → List String → Option (List String)
  | 0, _, _, _ => none
  | fuel + 1, month, year, acc =>
    if month > monthLimit ∧ year = yearLimit then some acc
    else if month = 13 then rangeLoop monthLimit yearLimit fuel 1 (year + 1) acc
    else rangeLoop monthLimit yearLimit fuel (month + 1) year (acc ++ [mkMonthKey year month])

/-- `TransactionManager.calculate_collections_from_date_range`, fuelled.
The source reads `int(parts[0])`/`int(parts[1])` of both dates and loops;
inputs with fewer than two `-`-separated parts raise `IndexError` (modelled
as `none`). -/
def calculate_collections_from_date_range (fuel : Nat) (from_str to_str : String) :
    Option (List String) :=
  match pySplit '-' from_str, pySplit '-' to_str with
  | fy :: fm :: _, ty :: tm :: _ => rangeLoop (natOf tm) (natOf ty) fuel (natOf fm) (natOf fy) []
  | _, _ => none

/-- Specification-side enumeration of partition keys: the `n` consecutive
months starting at `(y, m)`, where month 13 of a year is month 1 of the
next.  Chronological by construction. -/
def keysFrom : Nat → Nat → Nat → List String
  | _, _, 0 => []
  | y, m, n + 1 =>
    if m = 13 then mkMonthKey (y + 1) 1 :: keysFrom (y + 1) 2 n
    else mkMonthKey y m :: keysFrom y (m + 1) n

/-- The mutable state of one `TransactionManager` instance: the db plus
`_transaction_email_ids`, the in-memory set of already-seen email ids, which
`load_transaction_email_ids` only ever grows (it is never cleared). -/
structure TMState where
  store : Store TxRecord
  emailIds : Finset (Option String)
deriving DecidableEq

/-- `TransactionManager.load_transaction_email_ids`: read the partition,
materialise every row as a `Transaction` (re-validating it) and add the
email ids to the in-memory set. -/
def load_transaction_email_ids (s : TMState) (c : String) : Except Err TMState :=
  match get_records s.store c with
  | .error e => .error e
  | .ok recs =>
    match create_transaction_list recs with
    | .error e => .error e
    | .ok txs => .ok { s with emailIds := s.emailIds ∪ (txs.map (·.email_id)).toFinset }

/-- `TransactionManager.save_transaction`: compute the partition from the
date, run the dedup pre-check (which reads the partition — and therefore
raises `MissingCollectionError` when the partition file does not exist yet),
then append the serialized transaction unless its `email_id` is already
known. -/
def save_transaction (s : TMState) (t : Tx) : Except Err TMState :=
  let c := calculate_collection_from_date t.date
  match load_transaction_email_ids s c with
  | .error e => .error e
  | .ok s =>
    if t.email_id ∈ s.emailIds then .ok s
    else .ok { s with store := add_record s.store t.serialize c }

/-- One key/value pair of the `filters` dict of
`TransactionManager.filter_transactions`, keyed by the transaction attribute
it compares against (`getattr(transaction, key)`). -/
inductive TxFilter where
  | tags (v : Finset String)
  | type (v : String)
  | date (v : String)
  | amount (v : ℚ)
  | id (v : String)
  | email_id (v : String)
deriving DecidableEq

/-- The truthiness of `match` inside `filter_transactions`: for `tags` the
set intersection `value & transaction.tags` must be non-empty; for any other
key it is `value == getattr(transaction, key)` (an `email_id` filter value
is a string, which never equals a `None` attribute). -/
def filterMatches (t : Tx) : TxFilter → Bool
  | .tags v => decide (v ∩ t.tags).Nonempty
  | .type v => v = t.type
  | .date v => v = t.date
  | .amount v => v = t.amount
  | .id v => v = t.id
  | .email_id v => match t.email_id with
    | some s => v = s
    | none => false

/-- The inner `for key, value in filters.items()` loop: stop at the first
matching filter (`break`).  (The dead `except InvalidFieldError` handler of
the source is unreachable: `getattr` never raises it.) -/
def matchesAny (t : Tx) : List TxFilter → Bool
  | [] => false
  | f :: fs => if filterMatches t f then true else matchesAny t fs

/-- `TransactionManager.filter_transactions`: keep, in order, the
transactions matching at least one filter. -/
def filter_transactions : List Tx → List TxFilter → List Tx
  | [], _ => []
  | t :: ts, fs =>
    if matchesAny t fs then t :: filter_transactions ts fs
    else filter_transactions ts fs

/-- The record-gathering loop of `get_transactions`: union the rows of every
partition in range, tolerating a missing partition as empty. -/
def gatherRecords (st : Store TxRecord) : List String → List TxRecord
  | [] => []
  | c :: cs =>
    (match get_records st c with
     | .ok rs => rs
     | .error _ => []) ++ gatherRecords st cs

/-- `TransactionManager.get_transactions`: enumerate the partitions of the
date range, gather their rows, materialise them as transactions and apply
the filters (`if filters:` — an empty filter dict applies no filtering). -/
def get_transactions (fuel : Nat) (st : Store TxRecord) (from_date to_date : String)
    (filters : List TxFilter) : Except Err (List Tx) :=
  match calculate_collections_from_date_range fuel from_date to_date with
  | none => .error .outOfFuel
  | some cols =>
    match create_transaction_list (gatherRecords st cols) with
    | .error e => .error e
    | .ok txs => if filters.isEmpty then .ok txs else .ok (filter_transactions txs filters)

/-- `TransactionManager.check_need_to_move_record`: pure comparison of the
year and month substrings of the two dates. -/
def check_need_to_move_record (old_date new_date : String) : Bool :=
  (pySplit '-' old_date).getD 0 "" ≠ (pySplit '-' new_date).getD 0 "" ∨
  (pySplit '-' old_date).getD 1 "" ≠ (pySplit '-' new_date).getD 1 ""

/-- `TransactionManager.remove_transaction`: delete by id inside the
partition derived from the date. -/
def remove_transaction (st : Store TxRecord) (date_str guid_str : String) :
    Except Err (Store TxRecord) :=
  remove_record (fun r => r.id) guid_str (calculate_collection_from_date date_str) st

/-- `TransactionManager.update_transaction`: move the record
(remove-from-old-partition then `save_transaction`) when year or month
changed, otherwise edit it in place.  The `isinstance` guard
(`InvalidTransactionError`) is unreachable in the typed embedding. -/
def update_transaction (s : TMState) (old_date_str : String) (t : Tx) : Except Err TMState :=
  if check_need_to_move_record old_date_str t.date then
    match remove_transaction s.store old_date_str t.id with
    | .error e => .error e
    | .ok st => save_transaction { s with store := st } t
  else
    match edit_record (fun r => r.id) t.id t.serialize
      (calculate_collection_from_date t.date) s.store with
    | .error e => .error e
    | .ok st => .ok { s with store := st }

/-! ## Tags (`src/fintool/tagging.py`) -/

/-- A `Tag` instance: a concept with its set of labels (the constructor
splits the stored `|`-joined label string into a set). -/
structure Tag where
  id : String
  concept : String
  tags : Finset String
deriving DecidableEq

/-- The linear scan of `TagManager.match_concpet` over the tags loaded in
memory (`self._tags`, the list `get_tags()` returns, in stored order):
return the label set of the first tag whose concept equals the input
exactly, `None` when no tag matches. -/
def match_concpet (tags : List Tag) (concept : String) : Option (Finset String) :=
  match tags with
  | [] => none
  | t :: ts => if t.concept = concept then some t.tags else match_concpet ts concept

/-! ## Sync pipeline (`src/fintool/sync.py`) -/

/-- A parsed transaction email (`TransactionEmail` of `src/fintool/email.py`):
the fields extracted by the parser, with `tags` filled in by the tagging
step (`None` until then). -/
structure TransactionEmail where
  concept : String
  date : String
  amount : String
  email_id : String
  tags : Option (Finset String)
deriving DecidableEq

/-- `sync.TaggingResult`. -/
structure TaggingResult where
  tagged : List TransactionEmail
  untagged : List TransactionEmail
deriving DecidableEq

/-- Modelled from the spec: the revision of `TagManager.match_concpet` that
`sync.py` imports alongside `NoTagsError` is not under `src/` (the
`src/fintool/tagging.py` revision present has no `NoTagsError`, so
`sync.py`'s `from fintool.tagging import TagManager, NoTagsError` cannot be
satisfied by it).  Per spec §4.3/§4.5, the lookup distinguishes the
`NoTags` condition — zero tag rules exist at all — from an ordinary miss,
and otherwise performs the same exact-match linear scan. -/
def match_concpet_sync (tags : List Tag) (concept : String) :
    Except Err (Option (Finset String)) :=
  if tags.isEmpty then .error .noTags
  else .ok (match_concpet tags concept)

/-- `SyncManager.tag_transaction_emails`: attach the matched label set to
each email, partitioning the batch into tagged and untagged in input order;
a `NoTagsError` from the lookup aborts the loop and propagates. -/
def tag_transaction_emails (tags : List Tag) :
    List TransactionEmail → Except Err TaggingResult
  | [] => .ok ⟨[], []⟩
  | e :: es =>
    match match_concpet_sync tags e.concept with
    | .error er => .error er
    | .ok found =>
      match tag_transaction_emails tags es with
      | .error er => .error er
      | .ok rest =>
        match found with
        | some s => .ok ⟨{ e with tags := some s } :: rest.tagged, rest.untagged⟩
        | none => .ok ⟨rest.tagged, e :: rest.untagged⟩

/-- `SyncManager.PENDING_COLLECTION`. -/
def PENDING_COLLECTION : String := "pending"

/-- `SyncManager.UNTAGGED_COLLECTION`. -/
def UNTAGGED_COLLECTION : String := "untagged"

/-- `SyncManager.save_transaction_emails`: persist each email's serialized
dict into the given collection, in order. -/
def save_transaction_emails (st : Store TransactionEmail) (es : List TransactionEmail)
    (c : String) : Store TransactionEmail :=
  match es with
  | [] => st
  | e :: rest => save_transaction_emails (add_record st e c) rest c

/-- The tagging-and-storing stage of `SyncManager.sync_transactions` (the
`try:`/`except NoTagsError:` block): tag the fetched batch and store tagged
emails as `pending`, untagged ones as `untagged`; when no tags exist at all,
store the whole batch as `untagged`.  The fetch and checkpoint stages around
it involve the network and the clock and are factored out; the function
takes the already-parsed batch. -/
def sync_transactions_tagging (tags : List Tag) (emails : List TransactionEmail)
    (st : Store TransactionEmail) : Store TransactionEmail :=
  match tag_transaction_emails tags emails with
  | .ok r =>
    save_transaction_emails (save_transaction_emails st r.tagged PENDING_COLLECTION)
      r.untagged UNTAGGED_COLLECTION
  | .error _ => save_transaction_emails st emails UNTAGGED_COLLECTION

/-! ## Last-sync checkpoints (`src/fintool/sync.py`, `LastSync`) -/

/-- A stored `LastSync` record: the integer timestamp and the composite
target key.  (`LastSync.__init__` applies `int(...)` to the stored cell;
cells are written from ints by `serialize`, and decimal rendering of
integers is injective, so cell-string comparison below is integer
comparison.) -/
structure LastSyncRec where
  last_sync : Int
  target : String
deriving DecidableEq

/-- The composite target key `f'{provider},{email_type},{mail_boxes}'`
(`mail_boxes` enters via its string rendering). -/
def mkTarget (provider email_type mail_boxes : String) : String :=
  provider ++ "," ++ email_type ++ "," ++ mail_boxes

/-- `SyncManager.get_last_sync`: scan the checkpoint collection for the
first record whose target equals the composite key. -/
def get_last_sync (st : Store LastSyncRec) (provider email_type mail_boxes col : String) :
    Except Err (Option LastSyncRec) :=
  match get_records st col with
  | .error e => .error e
  | .ok recs => .ok (recs.find? fun r => r.target = mkTarget provider email_type mail_boxes)

/-- `SyncManager.remove_last_sync`: look the checkpoint up by target, then —
when found — remove by the *timestamp* cell (`str(last_sync.last_sync)`),
which drops every record carrying that timestamp value regardless of its
target. -/
def remove_last_sync (st : Store LastSyncRec) (provider email_type mail_boxes col : String) :
    Except Err (Store LastSyncRec) :=
  match get_last_sync st provider email_type mail_boxes col with
  | .error e => .error e
  | .ok (some r) => remove_record (fun rec => rec.last_sync) r.last_sync col st
  | .ok none => .ok st

/-- `SyncManager.save_last_sync`: append a fresh checkpoint record. -/
def save_last_sync (st : Store LastSyncRec) (provider email_type mail_boxes : String)
    (ts : Int) (col : String) : Store LastSyncRec :=
  add_record st { last_sync := ts, target := mkTarget provider email_type mail_boxes } col

/-- `SyncManager.update_last_sync`: remove the previous checkpoint
(tolerating a missing collection on first run) and save the new one. -/
def update_last_sync (st : Store LastSyncRec) (provider email_type mail_boxes : String)
    (ts : Int) (col : String) : Except Err (Store LastSyncRec) :=
  match remove_last_sync st provider email_type mail_boxes col with
  | .ok st => .ok (save_last_sync st provider email_type mail_boxes ts col)
  | .error .missingCollection => .ok (save_last_sync st provider email_type mail_boxes ts col)
  | .error e => .error e

deriving instance DecidableEq for Except

/-! ## Specification-side predicates and concrete inputs used by the claims -/

/-- Specification-side reading of one filter entry, per spec §4.2: a `tags`
filter matches on non-empty set intersection, any other filter key matches
by exact equality with the transaction's parsed field value (an `email_id`
filter value is a string and can only equal a present email id). -/
def FilterSat (f : TxFilter) (t : Tx) : Prop :=
  match f with
  | .tags v => (v ∩ t.tags).Nonempty
  | .type v => t.type = v
  | .date v => t.date = v
  | .amount v => t.amount = v
  | .id v => t.id = v
  | .email_id v => t.email_id = some v

/-- A manager over an empty store, with nothing loaded in memory yet. -/
def emptyTM : TMState := { store := [], emailIds := ∅ }

/-- The field map of the end-to-end scenario:
`{type: income, date: 2022-01-01, amount: 12.3, tags: "a|b|c"}`. -/
def cmC1 : FieldMap :=
  { type := some "income", tags := some "a|b|c", date := some "2022-01-01",
    amount := some (.str "12.3") }

/-- A well-formed transaction with an email id, for the dedup scenario. -/
def txC5 : Tx :=
  { id := "t1", type := "income", date := "2022-01-15", amount := 5,
    tags := {"a"}, email_id := some "e1" }

/-- A store whose `2022/01` partition exists and is empty. -/
def stC5 : Store TxRecord := [("2022/01", [])]

/-- Stored row of the transaction that the move-on-edit scenario updates. -/
def rC6x : TxRecord :=
  { id := "X", type := "outcome", date := "2022-02-02", amount := 5,
    tags := "a", email_id := some "e1" }

/-- A row already sitting in the destination partition that carries the same
`email_id` as the moved transaction. -/
def rC6d : TxRecord :=
  { id := "D", type := "outcome", date := "2022-01-05", amount := 7,
    tags := "b", email_id := some "e1" }

/-- Same destination row but with a different `email_id`. -/
def rC6d2 : TxRecord :=
  { id := "D", type := "outcome", date := "2022-01-05", amount := 7,
    tags := "b", email_id := some "e2" }

/-- The updated transaction value: same id, date moved to January. -/
def txC6 : Tx :=
  { id := "X", type := "outcome", date := "2022-01-01", amount := 5,
    tags := {"a"}, email_id := some "e1" }

/-- Store for the move-on-edit counterexample: the destination partition
already holds a row with the same `email_id`. -/
def stC6 : Store TxRecord := [("2022/02", [rC6x]), ("2022/01", [rC6d])]

/-- Store for the move-on-edit witness: the destination row has a different
`email_id`. -/
def stC6w : Store TxRecord := [("2022/02", [rC6x]), ("2022/01", [rC6d2])]

/-- A valid field map carrying every key, for the round-trip witness. -/
def mC8 : FieldMap :=
  { id := some "tid", type := some "income", tags := some "a|b",
    date := some "2022-01-01", amount := some (.num 5), email_id := some "e9" }

/-- The transaction `mC8` constructs. -/
def txC8 : Tx :=
  { id := "tid", type := "income", date := "2022-01-01", amount := 5,
    tags := {"a", "b"}, email_id := some "e9" }

/-- A tag rule whose concept is `Uber Eats`, for the exact-match claim. -/
def tagUber : Tag := { id := "t1", concept := "Uber Eats", tags := {"food"} }

/-- Checkpoint collection holding two targets with the *same* timestamp. -/
def stC9 : Store LastSyncRec :=
  [("lastsync", [{ last_sync := 100, target := "p1,t,b" },
                 { last_sync := 100, target := "p2,t,b" }])]

/-- Checkpoint collection holding two targets with distinct timestamps. -/
def stC9w : Store LastSyncRec :=
  [("lastsync", [{ last_sync := 100, target := "p1,t,b" },
                 { last_sync := 50, target := "p2,t,b" }])]

/-! ## Split/join lemmas -/

theorem splitChar_ne_nil (c : Char) (l : List Char) : splitChar c l ≠ [] := by
  induction l with
  | nil => simp [splitChar]
  | cons x xs ih =>
    rw [splitChar]
    split
    · simp
    · cases h : splitChar c xs <;> simp

theorem not_mem_of_mem_splitChar (c : Char) :
    ∀ (l : List Char) (p : List Char), p ∈ splitChar c l → c ∉ p := by
  intro l
  induction l with
  | nil =>
    intro p hp
    simp [splitChar] at hp
    simp [hp]
  | cons x xs ih =>
    intro p hp
    rw [splitChar] at hp
    split at hp
    · rcases List.mem_cons.mp hp with h | h
      · simp [h]
      · exact ih p h
    · rename_i hx
      split at hp
      · rename_i heq
        exact absurd heq (splitChar_ne_nil c xs)
      · rename_i a b heq
        rcases List.mem_cons.mp hp with h | h
        · subst h
          intro hc
          rcases List.mem_cons.mp hc with h' | h'
          · exact hx h'.symm
          · exact ih a (heq ▸ List.mem_cons_self a b) h'
        · exact ih p (heq ▸ List.mem_cons_of_mem a h)

theorem splitChar_no_sep (c : Char) : ∀ l : List Char, c ∉ l → splitChar c l = [l] := by
  intro l
  induction l with
  | nil => simp [splitChar]
  | cons x xs ih =>
    intro h
    have hx : ¬ x = c := fun e => h (by simp [e])
    rw [splitChar, if_neg hx, ih (fun hc => h (List.mem_cons_of_mem _ hc))]

theorem splitChar_append (c : Char) :
    ∀ a b : List Char, c ∉ a → splitChar c (a ++ c :: b) = a :: splitChar c b := by
  intro a
  induction a with
  | nil => intro b _; simp [splitChar]
  | cons x a2 ih =>
    intro b h
    have hx : ¬ x = c := fun e => h (by simp [e])
    rw [List.cons_append, splitChar, if_neg hx, ih b (fun hc => h (List.mem_cons_of_mem _ hc))]

theorem splitChar_joinChar (c : Char) :
    ∀ l : List (List Char), l ≠ [] → (∀ p ∈ l, c ∉ p) → splitChar c (joinChar c l) = l := by
  intro l
  induction l with
  | nil => intro h; exact absurd rfl h
  | cons x t ih =>
    intro _ hp
    cases t with
    | nil =>
      show splitChar c x = [x]
      exact splitChar_no_sep c x (hp x (by simp))
    | cons y t2 =>
      show splitChar c (x ++ c :: joinChar c (y :: t2)) = x :: (y :: t2)
      rw [splitChar_append c x _ (hp x (by simp)),
        ih (by simp) (fun p hp2 => hp p (List.mem_cons_of_mem _ hp2))]

theorem strMk_data (s : String) : String.mk s.data = s := rfl

theorem pySplit_pyJoin (c : Char) (l : List String) (h : l ≠ [])
    (h2 : ∀ s ∈ l, c ∉ s.data) : pySplit c (pyJoin c l) = l := by
  unfold pySplit pyJoin
  rw [show (String.mk (joinChar c (l.map String.data))).data = joinChar c (l.map String.data)
    from rfl]
  rw [splitChar_joinChar c _ (by simpa using h)
    (by intro p hp; rcases List.mem_map.mp hp with ⟨s, hs, rfl⟩; exact h2 s hs)]
  rw [List.map_map]
  exact List.map_id'' (fun s => strMk_data s) l

theorem pySplit_ne_nil (c : Char) (s : String) : pySplit c s ≠ [] := by
  unfold pySplit
  intro h
  exact splitChar_ne_nil c s.data (List.map_eq_nil_iff.mp h)

theorem not_bar_of_mem_pySplit (c : Char) (s p : String) (hp : p ∈ pySplit c s) :
    c ∉ p.data := by
  rcases List.mem_map.mp hp with ⟨d, hd, rfl⟩
  exact not_mem_of_mem_splitChar c s.data d hd

/-! ## Record-store lemmas -/

theorem get_records_add_same {R : Type} (st : Store R) (r : R) (c : String) (recs : List R)
    (h : get_records st c = .ok recs) :
    get_records (add_record st r c) c = .ok (recs ++ [r]) := by
  induction st with
  | nil => simp [get_records] at h
  | cons p rest ih =>
    rw [get_records] at h
    rw [add_record]
    by_cases hc : p.1 = c
    · rw [if_pos hc] at h
      rw [if_pos hc, get_records, if_pos hc]
      cases h
      rfl
    · rw [if_neg hc] at h
      rw [if_neg hc, get_records, if_neg hc]
      exact ih h

theorem get_records_add_other {R : Type} (st : Store R) (r : R) (c c2 : String)
    (h : c2 ≠ c) : get_records (add_record st r c) c2 = get_records st c2 := by
  induction st with
  | nil =>
    simp only [add_record, get_records]
    rw [if_neg (fun e => h e.symm)]
  | cons p rest ih =>
    rw [add_record]
    by_cases hc : p.1 = c
    · rw [if_pos hc, get_records, get_records, if_neg (hc ▸ fun e => h e.symm),
        if_neg (hc ▸ fun e => h e.symm)]
    · rw [if_neg hc, get_records, get_records]
      by_cases hc2 : p.1 = c2
      · rw [if_pos hc2, if_pos hc2]
      · rw [if_neg hc2, if_neg hc2]
        exact ih

theorem recordsOf_add_same {R : Type} (st : Store R) (r : R) (c : String) :
    recordsOf (add_record st r c) c = recordsOf st c ++ [r] := by
  unfold recordsOf
  cases h : get_records st c with
  | ok recs => rw [get_records_add_same st r c recs h]
  | error e =>
    have : ∀ st2 : Store R, get_records st2 c = .error e → get_records (add_record st2 r c) c = .ok [r] := by
      intro st2
      induction st2 with
      | nil => intro _; simp [add_record, get_records]
      | cons p rest ih =>
        intro h2
        rw [get_records] at h2
        rw [add_record]
        by_cases hc : p.1 = c
        · rw [if_pos hc] at h2; cases h2
        · rw [if_neg hc] at h2
          rw [if_neg hc, get_records, if_neg hc]
          exact ih h2
    rw [this st h]
    rfl

theorem recordsOf_add_other {R : Type} (st : Store R) (r : R) (c c2 : String)
    (h : c2 ≠ c) : recordsOf (add_record st r c) c2 = recordsOf st c2 := by
  unfold recordsOf
  rw [get_records_add_other st r c c2 h]

theorem remove_record_spec {R K : Type} [DecidableEq K] (idOf : R → K) (v : K)
    (st : Store R) (c : String) (recs : List R) (h : get_records st c = .ok recs) :
    ∃ st2, remove_record idOf v c st = .ok st2 ∧
      get_records st2 c = .ok (recs.filter fun r => ¬ idOf r = v) ∧
      ∀ c2, c2 ≠ c → get_records st2 c2 = get_records st c2 := by
  induction st with
  | nil => simp [get_records] at h
  | cons p rest ih =>
    rw [get_records] at h
    rw [remove_record]
    by_cases hc : p.1 = c
    · rw [if_pos hc] at h
      cases h
      refine ⟨_, by rw [if_pos hc], ?_, ?_⟩
      · rw [get_records, if_pos hc]
      · intro c2 hc2
        rw [get_records, get_records, if_neg (hc ▸ fun e => hc2 e.symm),
          if_neg (hc ▸ fun e => hc2 e.symm)]
    · rw [if_neg hc] at h
      rcases ih h with ⟨st2, h1, h2, h3⟩
      refine ⟨p :: st2, by rw [if_neg hc, h1]; rfl, ?_, ?_⟩
      · rw [get_records, if_neg hc]
        exact h2
      · intro c2 hc2
        rw [get_records, get_records]
        by_cases hp : p.1 = c2
        · rw [if_pos hp, if_pos hp]
        · rw [if_neg hp, if_neg hp]
          exact h3 c2 hc2

theorem edit_record_spec {R K : Type} [DecidableEq K] (idOf : R → K) (v : K) (newR : R)
    (st : Store R) (c : String) (recs : List R) (h : get_records st c = .ok recs) :
    ∃ st2, edit_record idOf v newR c st = .ok st2 ∧
      get_records st2 c = .ok (recs.map fun r => if idOf r = v then newR else r) ∧
      ∀ c2, c2 ≠ c → get_records st2 c2 = get_records st c2 := by
  induction st with
  | nil => simp [get_records] at h
  | cons p rest ih =>
    rw [get_records] at h
    rw [edit_record]
    by_cases hc : p.1 = c
    · rw [if_pos hc] at h
      cases h
      refine ⟨_, by rw [if_pos hc], ?_, ?_⟩
      · rw [get_records, if_pos hc]
      · intro c2 hc2
        rw [get_records, get_records, if_neg (hc ▸ fun e => hc2 e.symm),
          if_neg (hc ▸ fun e => hc2 e.symm)]
    · rw [if_neg hc] at h
      rcases ih h with ⟨st2, h1, h2, h3⟩
      refine ⟨p :: st2, by rw [if_neg hc, h1]; rfl, ?_, ?_⟩
      · rw [get_records, if_neg hc]
        exact h2
      · intro c2 hc2
        rw [get_records, get_records]
        by_cases hp : p.1 = c2
        · rw [if_pos hp, if_pos hp]
        · rw [if_neg hp, if_neg hp]
          exact h3 c2 hc2

/-! ## Transaction-construction lemmas -/

theorem mkTransaction_inv (g : String) (m : FieldMap) (t : Tx)
    (h : mkTransaction g m = .ok t) :
    m.type = some t.type ∧ (t.type = "income" ∨ t.type = "outcome") ∧
    (∃ ts, m.tags = some ts ∧ t.tags = (pySplit '|' ts).toFinset) ∧
    m.date = some t.date ∧ validDate t.date = true ∧
    (∃ a, m.amount = some a ∧ parseAmountInput a = some t.amount) ∧
    t.id = m.id.getD g ∧ t.email_id = m.email_id := by
  cases hty : m.type with
  | none => simp only [mkTransaction, hty] at h; cases h
  | some ty =>
  cases hts : m.tags with
  | none =>
    simp only [mkTransaction, hty, hts] at h
    split at h <;> cases h
  | some ts =>
  cases hd : m.date with
  | none =>
    simp only [mkTransaction, hty, hts, hd] at h
    split at h <;> cases h
  | some d =>
  cases ha : m.amount with
  | none =>
    simp only [mkTransaction, hty, hts, hd, ha] at h
    split at h
    · split at h <;> cases h
    · cases h
  | some a =>
  cases hq : parseAmountInput a with
  | none =>
    simp only [mkTransaction, hty, hts, hd, ha, hq] at h
    split at h
    · split at h <;> cases h
    · cases h
  | some q =>
    simp only [mkTransaction, hty, hts, hd, ha, hq] at h
    split at h
    · rename_i hty2
      split at h
      · rename_i hd2
        simp only [Except.ok.injEq] at h
        subst h
        exact ⟨rfl, hty2, ⟨ts, rfl, rfl⟩, rfl, hd2, ⟨a, rfl, hq⟩, rfl, rfl⟩
      · cases h
    · cases h

theorem toFinset_pySplit_nonempty (c : Char) (s : String) :
    ((pySplit c s).toFinset : Finset String).Nonempty := by
  cases h : pySplit c s with
  | nil => exact absurd h (pySplit_ne_nil c s)
  | cons x xs => exact ⟨x, by simp [h]⟩

theorem wellFormedTx_of_mk (g : String) (m : FieldMap) (t : Tx)
    (h : mkTransaction g m = .ok t) : WellFormedTx t := by
  rcases mkTransaction_inv g m t h with ⟨_, hty, ⟨ts, _, htags⟩, _, hdate, _⟩
  refine ⟨hty, hdate, ?_, ?_⟩
  · rw [htags]; exact toFinset_pySplit_nonempty '|' ts
  · intro s hs
    rw [htags] at hs
    exact not_bar_of_mem_pySplit '|' ts s (List.mem_toFinset.mp hs)

theorem pySplit_joinTags (s : Finset String) (h1 : s.Nonempty)
    (h2 : ∀ x ∈ s, ('|' : Char) ∉ x.data) :
    pySplit '|' (joinTags s) = s.sort (· ≤ ·) := by
  unfold joinTags
  apply pySplit_pyJoin
  · intro he
    rw [← Finset.sort_toFinset (· ≤ ·) s, he] at h1
    simp at h1
  · intro x hx
    exact h2 x ((Finset.mem_sort (· ≤ ·)).mp hx)

theorem toFinset_pySplit_joinTags (s : Finset String) (h1 : s.Nonempty)
    (h2 : ∀ x ∈ s, ('|' : Char) ∉ x.data) :
    ((pySplit '|' (joinTags s)).toFinset : Finset String) = s := by
  rw [pySplit_joinTags s h1 h2, Finset.sort_toFinset]

theorem txOfStoredRecord_serialize (t : Tx) (h : WellFormedTx t) :
    txOfStoredRecord t.serialize = .ok { t with email_id := some (t.email_id.getD "") } := by
  rcases h with ⟨hty, hdate, htags, hbar⟩
  unfold txOfStoredRecord mkTransaction Tx.serialize
  simp only
  rw [if_pos hty, if_pos hdate]
  simp only [parseAmountInput, Option.getD_some]
  rw [toFinset_pySplit_joinTags t.tags htags hbar]

theorem create_transaction_list_append (l1 l2 : List TxRecord) (v1 v2 : List Tx)
    (h1 : create_transaction_list l1 = .ok v1) (h2 : create_transaction_list l2 = .ok v2) :
    create_transaction_list (l1 ++ l2) = .ok (v1 ++ v2) := by
  induction l1 generalizing v1 with
  | nil =>
    rw [create_transaction_list] at h1
    cases h1
    simpa using h2
  | cons r rs ih =>
    rw [create_transaction_list] at h1
    rw [List.cons_append, create_transaction_list]
    cases hr : txOfStoredRecord r with
    | error e => rw [hr] at h1; cases h1
    | ok tx =>
      rw [hr] at h1
      cases hrs : create_transaction_list rs with
      | error e => rw [hrs] at h1; cases h1
      | ok txs =>
        rw [hrs] at h1
        cases h1
        rw [ih txs hrs]
        rfl

theorem create_transaction_list_mem (l : List TxRecord) (v : List Tx)
    (h : create_transaction_list l = .ok v) (t : Tx) (ht : t ∈ v) :
    ∃ r ∈ l, txOfStoredRecord r = .ok t := by
  induction l generalizing v with
  | nil =>
    rw [create_transaction_list] at h
    cases h
    cases ht
  | cons r rs ih =>
    rw [create_transaction_list] at h
    cases hr : txOfStoredRecord r with
    | error e => rw [hr] at h; cases h
    | ok tx =>
      rw [hr] at h
      cases hrs : create_transaction_list rs with
      | error e => rw [hrs] at h; cases h
      | ok txs =>
        rw [hrs] at h
        cases h
        rcases List.mem_cons.mp ht with h | h
        · exact ⟨r, by simp, h ▸ hr⟩
        · rcases ih txs hrs h with ⟨r2, hr2, hr3⟩
          exact ⟨r2, List.mem_cons_of_mem r hr2, hr3⟩

theorem txOfStoredRecord_email (r : TxRecord) (t : Tx) (h : txOfStoredRecord r = .ok t) :
    t.email_id = some (r.email_id.getD "") := by
  rcases mkTransaction_inv "" _ t h with ⟨_, _, _, _, _, _, _, he⟩
  exact he

/-! ## Date-range loop lemmas -/

theorem keysFrom_13 (y n : Nat) : keysFrom y 13 n = keysFrom (y + 1) 1 n := by
  cases n with
  | zero => rfl
  | succ k => rw [keysFrom, keysFrom, if_pos rfl, if_neg (by omega)]

theorem keysFrom_length (y m n : Nat) : (keysFrom y m n).length = n := by
  induction n generalizing y m with
  | zero => rfl
  | succ k ih =>
    rw [keysFrom]
    split <;> simp [ih]

theorem rangeLoop_spec (m2 y2 : Nat) (hm2 : m2 ≤ 12) :
    ∀ (fuel y m : Nat) (acc : List String), 1 ≤ m → m ≤ 13 →
    (y < y2 ∨ (y = y2 ∧ m ≤ m2 + 1)) →
    12 * y2 + m2 + 1 - (12 * y + m) + (y2 - y) + 1 ≤ fuel →
    rangeLoop m2 y2 fuel m y acc =
      some (acc ++ keysFrom y m (12 * y2 + m2 + 1 - (12 * y + m))) := by
  intro fuel
  induction fuel with
  | zero =>
    intro y m acc h1 h2 h3 h4
    omega
  | succ fuel ih =>
    intro y m acc h1 h2 h3 h4
    rw [rangeLoop]
    by_cases hstop : m > m2 ∧ y = y2
    · rw [if_pos hstop]
      rw [show 12 * y2 + m2 + 1 - (12 * y + m) = 0 from by omega]
      rw [keysFrom]
      simp
    · rw [if_neg hstop]
      by_cases h13 : m = 13
      · subst h13
        rw [if_pos rfl]
        rw [keysFrom_13]
        rw [show 12 * y2 + m2 + 1 - (12 * y + 13) =
          12 * y2 + m2 + 1 - (12 * (y + 1) + 1) from by omega]
        exact ih (y + 1) 1 acc (by omega) (by omega) (by omega) (by omega)
      · rw [if_neg h13]
        have hk : keysFrom y m (12 * y2 + m2 + 1 - (12 * y + m)) =
            mkMonthKey y m :: keysFrom y (m + 1) (12 * y2 + m2 + 1 - (12 * y + (m + 1))) := by
          obtain ⟨k, hkk⟩ : ∃ k, 12 * y2 + m2 + 1 - (12 * y + m) = k + 1 :=
            ⟨12 * y2 + m2 + 1 - (12 * y + m) - 1, by omega⟩
          rw [hkk, keysFrom, if_neg h13,
            show k = 12 * y2 + m2 + 1 - (12 * y + (m + 1)) from by omega]
        rw [hk]
        rw [ih y (m + 1) (acc ++ [mkMonthKey y m]) (by omega) (by omega) (by omega) (by omega)]
        simp

theorem rangeLoop_gt_none (m2 y2 : Nat) :
    ∀ (fuel m y : Nat) (acc : List String), y2 < y →
    rangeLoop m2 y2 fuel m y acc = none := by
  intro fuel
  induction fuel with
  | zero => intro m y acc h; rw [rangeLoop]
  | succ fuel ih =>
    intro m y acc h
    rw [rangeLoop, if_neg (by omega)]
    by_cases h13 : m = 13
    · rw [if_pos h13]
      exact ih 1 (y + 1) acc (by omega)
    · rw [if_neg h13]
      exact ih (m + 1) y _ h

/-! ## Filter and save lemmas -/

theorem filterMatches_iff (t : Tx) (f : TxFilter) :
    filterMatches t f = true ↔ FilterSat f t := by
  cases f with
  | tags v => simp [filterMatches, FilterSat]
  | type v => simp [filterMatches, FilterSat, eq_comm]
  | date v => simp [filterMatches, FilterSat, eq_comm]
  | amount v => simp [filterMatches, FilterSat, eq_comm]
  | id v => simp [filterMatches, FilterSat, eq_comm]
  | email_id v =>
    cases he : t.email_id with
    | none => simp [filterMatches, FilterSat, he]
    | some s => simp [filterMatches, FilterSat, he, eq_comm]

theorem matchesAny_iff (t : Tx) (fs : List TxFilter) :
    matchesAny t fs = true ↔ ∃ f ∈ fs, FilterSat f t := by
  induction fs with
  | nil => simp [matchesAny]
  | cons f fs ih =>
    rw [matchesAny]
    by_cases hf : filterMatches t f = true
    · rw [if_pos hf]
      simp only [true_iff]
      exact ⟨f, by simp, (filterMatches_iff t f).mp hf⟩
    · rw [if_neg hf, ih]
      constructor
      · rintro ⟨g, hg, hsat⟩
        exact ⟨g, List.mem_cons_of_mem f hg, hsat⟩
      · rintro ⟨g, hg, hsat⟩
        rcases List.mem_cons.mp hg with heq | hmem
        · subst heq
          exact absurd ((filterMatches_iff t g).mpr hsat) hf
        · exact ⟨g, hmem, hsat⟩

theorem mem_filter_transactions (txs : List Tx) (fs : List TxFilter) (t : Tx) :
    t ∈ filter_transactions txs fs ↔ t ∈ txs ∧ ∃ f ∈ fs, FilterSat f t := by
  induction txs with
  | nil => simp [filter_transactions]
  | cons x xs ih =>
    rw [filter_transactions]
    by_cases hx : matchesAny x fs = true
    · rw [if_pos hx, List.mem_cons, List.mem_cons, ih]
      constructor
      · rintro (rfl | ⟨h1, h2⟩)
        · exact ⟨Or.inl rfl, (matchesAny_iff t fs).mp hx⟩
        · exact ⟨Or.inr h1, h2⟩
      · rintro ⟨rfl | hm, hsat⟩
        · exact Or.inl rfl
        · exact Or.inr ⟨hm, hsat⟩
    · rw [if_neg hx, ih, List.mem_cons]
      constructor
      · rintro ⟨h1, h2⟩
        exact ⟨Or.inr h1, h2⟩
      · rintro ⟨rfl | hm, hsat⟩
        · exact absurd ((matchesAny_iff t fs).mpr hsat) hx
        · exact ⟨hm, hsat⟩

theorem save_transaction_insert (s : TMState) (t : Tx) (recs : List TxRecord) (txs : List Tx)
    (hrecs : get_records s.store (calculate_collection_from_date t.date) = .ok recs)
    (hparse : create_transaction_list recs = .ok txs)
    (hnew : t.email_id ∉ s.emailIds ∪ (txs.map (·.email_id)).toFinset) :
    save_transaction s t =
      .ok { store := add_record s.store t.serialize (calculate_collection_from_date t.date),
            emailIds := s.emailIds ∪ (txs.map (·.email_id)).toFinset } := by
  simp only [save_transaction, load_transaction_email_ids, hrecs, hparse]
  rw [if_neg (by simpa using hnew)]

theorem save_transaction_skip (s : TMState) (t : Tx) (recs : List TxRecord) (txs : List Tx)
    (hrecs : get_records s.store (calculate_collection_from_date t.date) = .ok recs)
    (hparse : create_transaction_list recs = .ok txs)
    (hdup : t.email_id ∈ s.emailIds ∪ (txs.map (·.email_id)).toFinset) :
    save_transaction s t =
      .ok { store := s.store, emailIds := s.emailIds ∪ (txs.map (·.email_id)).toFinset } := by
  simp only [save_transaction, load_transaction_email_ids, hrecs, hparse]
  rw [if_pos (by simpa using hdup)]

theorem not_mem_email_ids (recs : List TxRecord) (txs : List Tx) (e : String)
    (hparse : create_transaction_list recs = .ok txs)
    (h : ∀ r ∈ recs, ¬ r.email_id.getD "" = e) :
    (some e : Option String) ∉ (txs.map (·.email_id)).toFinset := by
  intro hmem
  rcases List.mem_map.mp (List.mem_toFinset.mp hmem) with ⟨tx, htx, he⟩
  rcases create_transaction_list_mem recs txs hparse tx htx with ⟨r, hr, hok⟩
  have := txOfStoredRecord_email r tx hok
  rw [this] at he
  exact h r hr (Option.some.injEq _ _ ▸ he)

/-! ## Sync save lemmas -/

theorem save_transaction_emails_same (es : List TransactionEmail)
    (st : Store TransactionEmail) (c : String) :
    recordsOf (save_transaction_emails st es c) c = recordsOf st c ++ es := by
  induction es generalizing st with
  | nil => rw [save_transaction_emails]; simp
  | cons e rest ih =>
    rw [save_transaction_emails, ih, recordsOf_add_same]
    simp

theorem save_transaction_emails_other (es : List TransactionEmail)
    (st : Store TransactionEmail) (c c2 : String) (h : c2 ≠ c) :
    recordsOf (save_transaction_emails st es c) c2 = recordsOf st c2 := by
  induction es generalizing st with
  | nil => rw [save_transaction_emails]
  | cons e rest ih =>
    rw [save_transaction_emails, ih, recordsOf_add_other _ _ _ _ h]

/-! ## Claims -/

/-- C1: the end-to-end scenario fails on the code.  Constructing the
transaction `{type: income, date: 2022-01-01, amount: 12.3, tags: "a|b|c"}`
succeeds (first conjunct: generated id, parsed fields, tags as the set
`{a,b,c}`), but `save_transaction` against an *empty* store raises
`MissingCollectionError`: its dedup pre-check reads partition `2022/01`
before inserting anything (second conjunct).  The store stays empty, so a
subsequent range query over January 2022 returns no transactions at all
(third conjunct) instead of the saved one. -/
theorem claim_C1 :
    (mkTransaction "g0" cmC1).map (fun t => (t.id, t.type, t.date, t.tags, t.email_id)) =
      .ok ("g0", "income", "2022-01-01", ({"a", "b", "c"} : Finset String), none) ∧
    (match mkTransaction "g0" cmC1 with
     | .ok t => save_transaction emptyTM t
     | .error e => .error e) = .error .missingCollection ∧
    get_transactions 3 [] "2022-01-01" "2022-01-31" [] = .ok [] := by
  refine ⟨by decide, by decide, by decide⟩

/-- C7: concept matching scans the stored tag list in order and returns the
label set of the first tag whose concept equals the input under
case-sensitive string equality — `none` exactly when no stored concept
equals the input (first conjunct), `some s` exactly when some tag with
concept equal to the input follows only non-matching tags (second
conjunct); in particular the tag with concept `Uber Eats` does not answer a
lookup for `uber eats` (third conjunct). -/
theorem claim_C7 :
    (∀ (tags : List Tag) (c : String),
      match_concpet tags c = none ↔ ∀ t ∈ tags, t.concept ≠ c) ∧
    (∀ (tags : List Tag) (c : String) (s : Finset String),
      match_concpet tags c = some s ↔
        ∃ pre t post, tags = pre ++ t :: post ∧ t.concept = c ∧ t.tags = s ∧
          ∀ u ∈ pre, u.concept ≠ c) ∧
    match_concpet [tagUber] "uber eats" = none := by
  refine ⟨?_, ?_, by decide⟩
  · intro tags c
    induction tags with
    | nil => simp [match_concpet]
    | cons a rest ih =>
      rw [match_concpet]
      by_cases ha : a.concept = c
      · rw [if_pos ha]
        simp only [List.mem_cons]
        constructor
        · intro h; cases h
        · intro h
          exact absurd ha (h a (Or.inl rfl))
      · rw [if_neg ha, ih]
        constructor
        · intro h t ht
          rcases List.mem_cons.mp ht with rfl | hm
          · exact ha
          · exact h t hm
        · intro h t ht
          exact h t (List.mem_cons_of_mem a ht)
  · intro tags c s
    induction tags with
    | nil =>
      rw [match_concpet]
      constructor
      · intro h; cases h
      · rintro ⟨pre, t, post, heq, -, -, -⟩
        exact absurd heq.symm (by simp)
    | cons a rest ih =>
      rw [match_concpet]
      by_cases ha : a.concept = c
      · rw [if_pos ha]
        constructor
        · intro h
          refine ⟨[], a, rest, rfl, ha, ?_, by simp⟩
          cases h
          rfl
        · rintro ⟨pre, t, post, heq, htc, hts, hpre⟩
          cases pre with
          | nil =>
            simp only [List.nil_append, List.cons.injEq] at heq
            rw [← hts, heq.1]
          | cons p ps =>
            simp only [List.cons_append, List.cons.injEq] at heq
            exact absurd (heq.1 ▸ ha) (hpre p (by simp))
      · rw [if_neg ha, ih]
        constructor
        · rintro ⟨pre, t, post, heq, htc, hts, hpre⟩
          refine ⟨a :: pre, t, post, by rw [List.cons_append, heq], htc, hts, ?_⟩
          intro u hu
          rcases List.mem_cons.mp hu with rfl | hm
          · exact ha
          · exact hpre u hm
        · rintro ⟨pre, t, post, heq, htc, hts, hpre⟩
          cases pre with
          | nil =>
            simp only [List.nil_append, List.cons.injEq] at heq
            exact absurd (heq.1 ▸ htc) ha
          | cons p ps =>
            simp only [List.cons_append, List.cons.injEq] at heq
            refine ⟨ps, t, post, heq.2, htc, hts, ?_⟩
            intro u hu
            exact hpre u (List.mem_cons_of_mem p hu)

/-- C3: with zero tag rules, the tagging stage of `sync_transactions` stores
the whole parsed batch in the `untagged` collection (first conjunct), leaves
the `pending` collection untouched (second conjunct), and short-circuits:
`tag_transaction_emails` aborts with the `NoTags` condition on any non-empty
batch before doing any per-item matching (third conjunct).  Settled against
the spec-modelled `NoTags`-raising lookup, see `match_concpet_sync`. -/
theorem claim_C3 (emails : List TransactionEmail) (st : Store TransactionEmail) :
    recordsOf (sync_transactions_tagging [] emails st) UNTAGGED_COLLECTION =
      recordsOf st UNTAGGED_COLLECTION ++ emails ∧
    recordsOf (sync_transactions_tagging [] emails st) PENDING_COLLECTION =
      recordsOf st PENDING_COLLECTION ∧
    tag_transaction_emails [] emails =
      (if emails.isEmpty then .ok ⟨[], []⟩ else .error .noTags) := by
  cases emails with
  | nil =>
    refine ⟨?_, ?_, rfl⟩
    · simp [sync_transactions_tagging, tag_transaction_emails, save_transaction_emails]
    · simp [sync_transactions_tagging, tag_transaction_emails, save_transaction_emails]
  | cons e es =>
    have htag : tag_transaction_emails [] (e :: es) = .error .noTags := by
      rw [tag_transaction_emails]
      rfl
    refine ⟨?_, ?_, by rw [htag]; rfl⟩
    · simp only [sync_transactions_tagging, htag]
      exact save_transaction_emails_same (e :: es) st UNTAGGED_COLLECTION
    · simp only [sync_transactions_tagging, htag]
      exact save_transaction_emails_other (e :: es) st UNTAGGED_COLLECTION PENDING_COLLECTION
        (by decide)

/-- C4: over any range whose months are real (1–12) and whose (year, month)
start is not after its end, the partition loop returns exactly the
chronological month enumeration `keysFrom` — one `YYYY/MM` key per month
from the from-month to the to-month inclusive, across year rollovers (first
conjunct; `keysFrom` yields one key per month, second conjunct); in
particular the range 2020-04-01 … 2022-04-01 yields exactly the 25
consecutive keys `2020/04` … `2022/04`, and a range with `from == to`
yields the single key of that month (last two conjuncts). -/
theorem claim_C4 :
    (∀ y1 m1 y2 m2 fuel : Nat, 1 ≤ m1 → m1 ≤ 12 → 1 ≤ m2 → m2 ≤ 12 →
      (y1 < y2 ∨ (y1 = y2 ∧ m1 ≤ m2)) →
      12 * y2 + m2 + 1 - (12 * y1 + m1) + (y2 - y1) + 1 ≤ fuel →
      rangeLoop m2 y2 fuel m1 y1 [] =
        some (keysFrom y1 m1 (12 * y2 + m2 + 1 - (12 * y1 + m1)))) ∧
    (∀ y m n : Nat, (keysFrom y m n).length = n) ∧
    calculate_collections_from_date_range 40 "2020-04-01" "2022-04-01" =
      some ["2020/04", "2020/05", "2020/06", "2020/07", "2020/08", "2020/09",
            "2020/10", "2020/11", "2020/12", "2021/01", "2021/02", "2021/03",
            "2021/04", "2021/05", "2021/06", "2021/07", "2021/08", "2021/09",
            "2021/10", "2021/11", "2021/12", "2022/01", "2022/02", "2022/03",
            "2022/04"] ∧
    calculate_collections_from_date_range 2 "2022-01-15" "2022-01-15" = some ["2022/01"] := by
  refine ⟨?_, keysFrom_length, by decide, by decide⟩
  intro y1 m1 y2 m2 fuel h1 h2 h3 h4 h5 h6
  have := rangeLoop_spec m2 y2 h4 fuel y1 m1 [] h1 (by omega) (by omega) h6
  simpa using this

/-- C4 witness: the general enumeration theorem applied to the concrete
2020-04 … 2022-04 range (25 months, ample fuel). -/
theorem claim_C4_witness : rangeLoop 4 2022 40 4 2020 [] = some (keysFrom 2020 4 25) :=
  claim_C4.1 2020 4 2022 4 40 (by omega) (by omega) (by omega) (by omega) (by omega) (by omega)

/-- C10 (amended): when the (year, month) pairs satisfy from ≤ to (months
real), the loop terminates — some fuel makes it return a list (first
conjunct).  Termination genuinely depends on the *years*: when the
from-year exceeds the to-year the loop never reaches its stop condition,
i.e. it returns `none` for every fuel (second conjunct); but a
from-after-to range *within one year* reaches the stop condition on the
first iteration and returns the empty list (third conjunct), contrary to
the claim's parenthetical. -/
theorem claim_C10 :
    (∀ y1 m1 y2 m2 : Nat, 1 ≤ m1 → m1 ≤ 12 → 1 ≤ m2 → m2 ≤ 12 →
      (y1 < y2 ∨ (y1 = y2 ∧ m1 ≤ m2)) →
      ∃ fuel keys, rangeLoop m2 y2 fuel m1 y1 [] = some keys) ∧
    (∀ (y1 m1 y2 m2 : Nat) (acc : List String) (fuel : Nat), y2 < y1 →
      rangeLoop m2 y2 fuel m1 y1 acc = none) ∧
    (∀ y m1 m2 fuel : Nat, m2 < m1 → 1 ≤ fuel → rangeLoop m2 y fuel m1 y [] = some []) := by
  refine ⟨?_, ?_, ?_⟩
  · intro y1 m1 y2 m2 h1 h2 h3 h4 h5
    refine ⟨12 * y2 + m2 + 1 - (12 * y1 + m1) + (y2 - y1) + 1, _,
      rangeLoop_spec m2 y2 h4 _ y1 m1 [] h1 (by omega) (by omega) (by omega)⟩
  · intro y1 m1 y2 m2 acc fuel h
    exact rangeLoop_gt_none m2 y2 fuel m1 y1 acc h
  · intro y m1 m2 fuel h hf
    cases fuel with
    | zero => omega
    | succ k => rw [rangeLoop, if_pos ⟨h, rfl⟩]

/-- C10 counterexample: the range 2022-05-01 … 2022-03-01 has from strictly
after to, yet the loop reaches its stop condition immediately and
terminates with the empty list — refuting the claim's assertion that ranges
with from after to never reach the stop condition. -/
theorem claim_C10_cex :
    calculate_collections_from_date_range 1 "2022-05-01" "2022-03-01" = some [] := by
  decide

/-- C10 witness: termination on a concrete in-order range and divergence on
a concrete reversed-years range, via the amended theorem. -/
theorem claim_C10_witness :
    (∃ fuel keys, rangeLoop 3 2021 fuel 5 2020 [] = some keys) ∧
    rangeLoop 3 2021 100 5 2023 [] = none :=
  ⟨claim_C10.1 2020 5 2021 3 (by omega) (by omega) (by omega) (by omega) (by omega),
   claim_C10.2.1 2023 5 2021 3 [] 100 (by omega)⟩

/-- C2: filtering includes a transaction exactly when it matches at least
one filter entry — OR semantics across filter keys — where a `tags` filter
matches by non-empty set intersection and every other filter key by exact
equality with the parsed field value (first conjunct, via `FilterSat`);
and `get_transactions` with a non-empty filter map is exactly the
unfiltered query post-composed with `filter_transactions` (second
conjunct). -/
theorem claim_C2 :
    (∀ (txs : List Tx) (fs : List TxFilter) (t : Tx),
      t ∈ filter_transactions txs fs ↔ t ∈ txs ∧ ∃ f ∈ fs, FilterSat f t) ∧
    (∀ (fuel : Nat) (st : Store TxRecord) (fd td : String) (fs : List TxFilter), fs ≠ [] →
      get_transactions fuel st fd td fs =
        (get_transactions fuel st fd td []).map fun txs => filter_transactions txs fs) := by
  refine ⟨mem_filter_transactions, ?_⟩
  intro fuel st fd td fs hfs
  simp only [get_transactions]
  cases hc : calculate_collections_from_date_range fuel fd td with
  | none => rfl
  | some cols =>
    show (match create_transaction_list (gatherRecords st cols) with
      | .error e => .error e
      | .ok txs => if fs.isEmpty = true then Except.ok txs
                   else Except.ok (filter_transactions txs fs)) =
      Except.map (fun txs => filter_transactions txs fs)
        (match create_transaction_list (gatherRecords st cols) with
         | .error e => .error e
         | .ok txs => if ([] : List TxFilter).isEmpty = true then Except.ok txs
                      else Except.ok (filter_transactions txs []))
    cases hl : create_transaction_list (gatherRecords st cols) with
    | error e => rfl
    | ok txs =>
      cases fs with
      | nil => exact absurd rfl hfs
      | cons f fs2 => rfl

/-- C2 witness: the query/filter decomposition applied to a concrete
non-empty filter map. -/
theorem claim_C2_witness :
    get_transactions 3 [] "2022-01-01" "2022-01-31" [TxFilter.type "outcome"] =
      (get_transactions 3 [] "2022-01-01" "2022-01-31" []).map
        (fun txs => filter_transactions txs [TxFilter.type "outcome"]) :=
  claim_C2.2 3 [] "2022-01-01" "2022-01-31" [TxFilter.type "outcome"]
    (List.cons_ne_nil _ _)

/-- C8: the serialize/deserialize round trip.  Whenever a field map
constructs a transaction, re-constructing from the serialized dictionary
reproduces the very same transaction, field by field — including the id
(the serialized form carries the constructed id, supplied or generated), the
tags as a set, the amount, the date, the type and the email id. -/
theorem claim_C8 (g g2 : String) (m : FieldMap) (t : Tx)
    (h : mkTransaction g m = .ok t) :
    mkTransaction g2 (recordToFieldMap t.serialize) = .ok t := by
  rcases mkTransaction_inv g m t h with ⟨-, hty2, -, -, hdate, -, -, -⟩
  rcases wellFormedTx_of_mk g m t h with ⟨-, -, hne, hbar⟩
  simp only [mkTransaction, recordToFieldMap, Tx.serialize, parseAmountInput]
  rw [if_pos hty2, if_pos hdate, toFinset_pySplit_joinTags t.tags hne hbar]
  rfl

/-- C8 witness: the round trip at a concrete valid field map carrying every
key. -/
theorem claim_C8_witness :
    mkTransaction "h0" (recordToFieldMap (Tx.serialize txC8)) = .ok txC8 :=
  claim_C8 "g0" "h0" mC8 txC8 (by decide)

/-- C5: saving the same transaction twice — any well-formed transaction
with a non-empty email id, into a partition that exists and holds no record
with that email id — stores it exactly once: the first save appends it, the
second save finds the email id among the partition's records and skips the
insert, leaving the partition with exactly one record carrying that email
id. -/
theorem claim_C5 (st : Store TxRecord) (recs : List TxRecord) (txs : List Tx) (t : Tx)
    (e : String) (hwf : WellFormedTx t) (he : t.email_id = some e)
    (hrecs : get_records st (calculate_collection_from_date t.date) = .ok recs)
    (hparse : create_transaction_list recs = .ok txs)
    (hfresh : ∀ r ∈ recs, ¬ r.email_id.getD "" = e) :
    ∃ s1 s2 : TMState,
      save_transaction { store := st, emailIds := ∅ } t = .ok s1 ∧
      save_transaction s1 t = .ok s2 ∧
      get_records s2.store (calculate_collection_from_date t.date) =
        .ok (recs ++ [t.serialize]) ∧
      ((recs ++ [t.serialize]).countP fun r => decide (r.email_id = some e)) = 1 := by
  have hgetd : (t.email_id.getD "") = e := by rw [he]; rfl
  have hnew1 : t.email_id ∉ (∅ : Finset (Option String)) ∪ (txs.map (·.email_id)).toFinset := by
    rw [Finset.empty_union, he]
    exact not_mem_email_ids recs txs e hparse hfresh
  have hs1 := save_transaction_insert { store := st, emailIds := ∅ } t recs txs hrecs hparse hnew1
  have hser : txOfStoredRecord t.serialize = .ok { t with email_id := some e } := by
    rw [txOfStoredRecord_serialize t hwf, hgetd]
  have hget1 : get_records (add_record st t.serialize (calculate_collection_from_date t.date))
      (calculate_collection_from_date t.date) = .ok (recs ++ [t.serialize]) :=
    get_records_add_same st t.serialize _ recs hrecs
  have hparse1 : create_transaction_list (recs ++ [t.serialize]) =
      .ok (txs ++ [({ t with email_id := some e } : Tx)]) := by
    refine create_transaction_list_append recs [t.serialize] txs [({ t with email_id := some e } : Tx)]
      hparse ?_
    rw [create_transaction_list, hser, create_transaction_list]
  have hdup : t.email_id ∈
      ((∅ : Finset (Option String)) ∪ (txs.map fun tx => tx.email_id).toFinset) ∪
        (((txs ++ [({ t with email_id := some e } : Tx)]).map fun tx => tx.email_id)).toFinset := by
    apply Finset.mem_union_right
    rw [List.mem_toFinset, List.map_append]
    apply List.mem_append_right
    rw [he]
    simp
  have hs2 := save_transaction_skip
    { store := add_record st t.serialize (calculate_collection_from_date t.date),
      emailIds := (∅ : Finset (Option String)) ∪ (txs.map (·.email_id)).toFinset }
    t (recs ++ [t.serialize]) (txs ++ [({ t with email_id := some e } : Tx)]) hget1 hparse1 hdup
  refine ⟨_, _, hs1, hs2, hget1, ?_⟩
  rw [List.countP_append]
  have h0 : recs.countP (fun r => decide (r.email_id = some e)) = 0 := by
    rw [List.countP_eq_zero]
    intro r hr
    simp only [decide_eq_true_eq]
    intro hre
    exact hfresh r hr (by rw [hre]; rfl)
  rw [h0]
  simp [Tx.serialize, he]

/-- C5 witness: the double save of a concrete transaction into an existing
empty partition. -/
theorem claim_C5_witness :
    ∃ s1 s2 : TMState,
      save_transaction { store := stC5, emailIds := ∅ } txC5 = .ok s1 ∧
      save_transaction s1 txC5 = .ok s2 ∧
      get_records s2.store (calculate_collection_from_date txC5.date) =
        .ok ([] ++ [txC5.serialize]) ∧
      ((([] ++ [txC5.serialize] : List TxRecord)).countP
        fun r => decide (r.email_id = some "e1")) = 1 :=
  claim_C5 stC5 [] [] txC5 "e1" (by decide) (by decide) (by decide) (by decide)
    (by intro r hr; cases hr)

/-- The in-memory transaction that the destination row `rC6d2` reads back
as. -/
def txC6d2 : Tx :=
  { id := "D", type := "outcome", date := "2022-01-05", amount := 7,
    tags := {"b"}, email_id := some "e2" }

/-- C6 counterexample: updating the stored transaction `X` (dated
2022-02-02, email id `e1`) to 2022-01-01 — a month change, so a move —
*loses* the record when the destination partition `2022/01` already holds a
row with the same `email_id`: the record is removed from `2022/02` but the
`save_transaction` dedup pre-check then skips the insert, so afterwards the
record appears under *no* partition (the destination still holds only the
unrelated row `rC6d`, whose id differs from the moved transaction's id),
refuting the claim that it appears under the new date's partition. -/
theorem claim_C6_cex :
    update_transaction { store := stC6, emailIds := ∅ } "2022-02-02" txC6 =
      .ok { store := [("2022/02", []), ("2022/01", [rC6d])],
            emailIds := {some "e1"} } ∧
    rC6d.id ≠ txC6.id := by
  exact ⟨by decide, by decide⟩

/-- C6 (amended): `check_need_to_move_record` is pure and true iff the year
or month substrings differ (first conjunct).  When they differ — and the two
partitions differ, the old partition exists, the destination partition
exists, its rows re-validate, and *no destination row shares the updated
transaction's email id* — a fresh manager's `update_transaction` removes the
record from the old partition, appends it to the destination partition and
touches no other collection (second conjunct).  If a destination row shares
the email id, the insert is skipped and the record is dropped entirely (see
the counterexample).  When year and month are unchanged the record is
edited in place in the date's partition, all other collections untouched
(third conjunct). -/
theorem claim_C6 :
    (∀ old_date new_date : String,
      check_need_to_move_record old_date new_date = true ↔
        ((pySplit '-' old_date).getD 0 "" ≠ (pySplit '-' new_date).getD 0 "" ∨
         (pySplit '-' old_date).getD 1 "" ≠ (pySplit '-' new_date).getD 1 "")) ∧
    (∀ (old_date : String) (t : Tx) (st : Store TxRecord)
      (recsOld recsNew : List TxRecord) (txsNew : List Tx),
      check_need_to_move_record old_date t.date = true →
      calculate_collection_from_date old_date ≠ calculate_collection_from_date t.date →
      get_records st (calculate_collection_from_date old_date) = .ok recsOld →
      get_records st (calculate_collection_from_date t.date) = .ok recsNew →
      create_transaction_list recsNew = .ok txsNew →
      (∀ tx ∈ txsNew, tx.email_id ≠ t.email_id) →
      ∃ s2 : TMState,
        update_transaction { store := st, emailIds := ∅ } old_date t = .ok s2 ∧
        get_records s2.store (calculate_collection_from_date old_date) =
          .ok (recsOld.filter fun r => ¬ r.id = t.id) ∧
        get_records s2.store (calculate_collection_from_date t.date) =
          .ok (recsNew ++ [t.serialize]) ∧
        ∀ c, c ≠ calculate_collection_from_date old_date →
          c ≠ calculate_collection_from_date t.date →
          get_records s2.store c = get_records st c) ∧
    (∀ (old_date : String) (t : Tx) (st : Store TxRecord) (recs : List TxRecord),
      check_need_to_move_record old_date t.date = false →
      get_records st (calculate_collection_from_date t.date) = .ok recs →
      ∃ s2 : TMState,
        update_transaction { store := st, emailIds := ∅ } old_date t = .ok s2 ∧
        get_records s2.store (calculate_collection_from_date t.date) =
          .ok (recs.map fun r => if r.id = t.id then t.serialize else r) ∧
        ∀ c, c ≠ calculate_collection_from_date t.date →
          get_records s2.store c = get_records st c) := by
  refine ⟨?_, ?_, ?_⟩
  · intro old_date new_date
    simp [check_need_to_move_record]
  · intro old_date t st recsOld recsNew txsNew hmove hcolne hold hnewrecs hparse hfresh
    rcases remove_record_spec (fun r : TxRecord => r.id) t.id st
      (calculate_collection_from_date old_date) recsOld hold with ⟨st1, hrem, hremget, hremframe⟩
    have hst1new : get_records st1 (calculate_collection_from_date t.date) = .ok recsNew := by
      rw [hremframe _ (fun h => hcolne h.symm), hnewrecs]
    have hnomem : t.email_id ∉
        (∅ : Finset (Option String)) ∪ (txsNew.map fun tx => tx.email_id).toFinset := by
      rw [Finset.empty_union, List.mem_toFinset]
      intro hmem
      rcases List.mem_map.mp hmem with ⟨tx, htx, he⟩
      exact hfresh tx htx he
    have hsave := save_transaction_insert { store := st1, emailIds := ∅ } t recsNew txsNew
      hst1new hparse hnomem
    refine ⟨{ store := add_record st1 t.serialize (calculate_collection_from_date t.date),
              emailIds := ∅ ∪ (txsNew.map fun tx => tx.email_id).toFinset }, ?_, ?_, ?_, ?_⟩
    · rw [update_transaction, if_pos hmove]
      unfold remove_transaction
      rw [hrem]
      exact hsave
    · rw [get_records_add_other st1 t.serialize _ _ hcolne]
      exact hremget
    · exact get_records_add_same st1 t.serialize _ recsNew hst1new
    · intro c hc1 hc2
      rw [get_records_add_other st1 t.serialize _ _ hc2]
      exact hremframe c hc1
  · intro old_date t st recs hstay holdrecs
    rcases edit_record_spec (fun r : TxRecord => r.id) t.id t.serialize st
      (calculate_collection_from_date t.date) recs holdrecs with ⟨st1, hedit, heditget, heditframe⟩
    refine ⟨{ store := st1, emailIds := ∅ }, ?_, heditget, heditframe⟩
    rw [update_transaction, if_neg (by simp [hstay]), hedit]

/-- C6 witness: a concrete move between partitions — destination exists and
holds only a row with a different email id, so the record lands there and
leaves the old partition. -/
theorem claim_C6_witness :
    ∃ s2 : TMState,
      update_transaction { store := stC6w, emailIds := ∅ } "2022-02-02" txC6 = .ok s2 ∧
      get_records s2.store (calculate_collection_from_date "2022-02-02") =
        .ok ([rC6x].filter fun r => ¬ r.id = txC6.id) ∧
      get_records s2.store (calculate_collection_from_date txC6.date) =
        .ok ([rC6d2] ++ [txC6.serialize]) ∧
      ∀ c, c ≠ calculate_collection_from_date "2022-02-02" →
        c ≠ calculate_collection_from_date txC6.date →
        get_records s2.store c = get_records stC6w c :=
  claim_C6.2.1 "2022-02-02" txC6 stC6w [rC6x] [rC6d2] [txC6d2] (by decide) (by decide)
    (by decide) (by decide) (by decide) (by decide)

/-- C9 counterexample: two checkpoint records for distinct targets carrying
the *same* timestamp 100.  Updating the checkpoint of target `p1,t,b`
removes by the timestamp cell, which deletes the other target's record too:
the final collection holds only the fresh `p1,t,b` checkpoint, and the
`p2,t,b` checkpoint is gone — refuting the claim that other targets'
records are left unchanged even when timestamps coincide. -/
theorem claim_C9_cex :
    update_last_sync stC9 "p1" "t" "b" 200 "lastsync" =
      .ok [("lastsync", [{ last_sync := 200, target := "p1,t,b" }])] := by
  decide

/-- C9 (amended): `update_last_sync` replaces the found checkpoint and
leaves every record of any *other* target unchanged **provided** no other
target's record carries the same timestamp value as the found checkpoint
(removal is keyed by the timestamp cell, not by the target): under that
proviso the resulting collection is the old one minus the records with the
found timestamp plus the fresh checkpoint (first conjunct), and
restricted to other targets it is unchanged, in order (second conjunct).
A record of another target with the identical timestamp is deleted too, as
the counterexample shows. -/
theorem claim_C9 (st : Store LastSyncRec) (recs : List LastSyncRec)
    (provider email_type mail_boxes col : String) (ts : Int) (r0 : LastSyncRec)
    (hrecs : get_records st col = .ok recs)
    (hfound : (recs.find? fun r => r.target = mkTarget provider email_type mail_boxes)
      = some r0)
    (hdistinct : ∀ r ∈ recs, r.target ≠ mkTarget provider email_type mail_boxes →
      r.last_sync ≠ r0.last_sync) :
    ∃ st2, update_last_sync st provider email_type mail_boxes ts col = .ok st2 ∧
      get_records st2 col =
        .ok ((recs.filter fun r => ¬ r.last_sync = r0.last_sync) ++
          [{ last_sync := ts, target := mkTarget provider email_type mail_boxes }]) ∧
      ((recordsOf st2 col).filter
          fun r => ¬ r.target = mkTarget provider email_type mail_boxes) =
        (recs.filter fun r => ¬ r.target = mkTarget provider email_type mail_boxes) := by
  rcases remove_record_spec (fun rec : LastSyncRec => rec.last_sync) r0.last_sync st col recs
    hrecs with ⟨st1, hrm, hrmget, hrmframe⟩
  have hremove : remove_last_sync st provider email_type mail_boxes col = .ok st1 := by
    simp only [remove_last_sync, get_last_sync, hrecs, hfound, hrm]
  have hupd : update_last_sync st provider email_type mail_boxes ts col =
      .ok (add_record st1 ⟨ts, mkTarget provider email_type mail_boxes⟩ col) := by
    simp only [update_last_sync, hremove, save_last_sync]
  have hget2 := get_records_add_same st1
    ⟨ts, mkTarget provider email_type mail_boxes⟩ col _ hrmget
  refine ⟨_, hupd, hget2, ?_⟩
  have hro : recordsOf (add_record st1 ⟨ts, mkTarget provider email_type mail_boxes⟩ col) col =
      (recs.filter fun r => ¬ r.last_sync = r0.last_sync) ++
        [(⟨ts, mkTarget provider email_type mail_boxes⟩ : LastSyncRec)] := by
    unfold recordsOf
    rw [hget2]
  rw [hro, List.filter_append]
  have hlast : ([(⟨ts, mkTarget provider email_type mail_boxes⟩ : LastSyncRec)].filter
      fun r : LastSyncRec => ¬ r.target = mkTarget provider email_type mail_boxes) = [] := by
    simp
  rw [hlast, List.append_nil, List.filter_filter]
  apply List.filter_congr
  intro r hr
  by_cases ht : r.target = mkTarget provider email_type mail_boxes
  · simp [ht]
  · simp [ht, hdistinct r hr ht]

/-- C9 witness: two targets with distinct timestamps — updating one leaves
the other target's checkpoint untouched. -/
theorem claim_C9_witness :
    ∃ st2, update_last_sync stC9w "p1" "t" "b" 200 "lastsync" = .ok st2 ∧
      get_records st2 "lastsync" =
        .ok (([{ last_sync := 100, target := "p1,t,b" },
               { last_sync := 50, target := "p2,t,b" }].filter
                 fun r => ¬ r.last_sync = (100 : Int)) ++
             [{ last_sync := 200, target := mkTarget "p1" "t" "b" }]) ∧
      ((recordsOf st2 "lastsync").filter
          fun r => ¬ r.target = mkTarget "p1" "t" "b") =
        ([{ last_sync := 100, target := "p1,t,b" },
          { last_sync := 50, target := "p2,t,b" }].filter
           fun r => ¬ r.target = mkTarget "p1" "t" "b") :=
  claim_C9 stC9w [{ last_sync := 100, target := "p1,t,b" },
    { last_sync := 50, target := "p2,t,b" }] "p1" "t" "b" "lastsync" 200
    { last_sync := 100, target := "p1,t,b" } (by decide) (by decide) (by decide)
